import Mathlib

/-!
Verification of the sparse-approximation core of `rsparse`
(`src/utils.cpp`, function `cpp_make_sparse_approximation`).

The C++ function receives an S4 sparse-matrix template (slots `p`, `j`, `i`,
`Dim`), two dense Armadillo factor matrices `X`, `Y`, a format discriminator
(`CSR = 2`, `CSC = 1`) and a thread count, and fills an output buffer with one
inner product per stored nonzero position.  The embedding below models the
IntegerVector slots as lists of mathematical integers (the stored 32-bit
values), dense matrices as entry functions over exact rationals standing for C
doubles, and every raw-pointer access that C++ leaves undefined when out of
range as an `Option` failure.
-/

namespace Rsparse

/-- Format discriminator for compressed sparse column matrices.  Modelled from
the spec: the constants are defined in `rsparse.h`, which is not among the
sources; the spec fixes them as `CSC = 1`, `CSR = 2`. -/
def CSC : Int := 1

/-- Format discriminator for compressed sparse row matrices.  Modelled from
the spec: `CSR = 2` (see `CSC`). -/
def CSR : Int := 2

/-- A dense Armadillo matrix of doubles, modelled with exact rational entries:
`nrow` is the latent-factor count, `ncol` the number of columns, and
`entry r c` the value at row `r`, column `c`. -/
structure DenseMat where
  nrow : Nat
  ncol : Nat
  entry : Nat → Nat → ℚ

/-- The `i`-th column of `M` as a plain list of its `nrow` entries
(the C++ code uses it as the row vector `M.col(i).t()`). -/
def colList (M : DenseMat) (i : Nat) : List ℚ :=
  (List.range M.nrow).map fun r => M.entry r i

/-- `M.colv i` models the Armadillo column extraction `M.col(i)`: the access is
only defined for `i < ncol`; `none` models the out-of-bounds access. -/
def DenseMat.colv (M : DenseMat) (i : Nat) : Option (List ℚ) :=
  if i < M.ncol then some (colList M i) else none

/-- `as_scalar(xc * yc)`: the inner product of two vectors. -/
def dot (u v : List ℚ) : ℚ :=
  (List.zipWith (fun a b => a * b) u v).sum

/-- The S4 sparse-matrix template: slot `p` (outer pointer array), slot `j`
(column indices, present on CSR objects), slot `i` (row indices, present on
CSC objects) hold 32-bit signed integers; `Dim` holds the nonnegative
dimensions `dim0 = nrows`, `dim1 = ncols`. -/
structure S4Pattern where
  p : List Int
  j : List Int
  i : List Int
  dim0 : Nat
  dim1 : Nat

/-- Reading `p[k]` through the raw `int*` pointer; an out-of-range access is
undefined behaviour in C++ and is modelled as `none`. -/
def readPtr (p : List Int) (k : Nat) : Option Int :=
  if k < p.length then some (p.getD k 0) else none

/-- Reading `j[pp]` through the reinterpreted `uint32_t*` pointer and widening
with `(size_t)`: the stored signed 32-bit value is used modulo `2 ^ 32`.
A negative position `pp` or a read past the array is modelled as `none`. -/
def readIndex (rj : List Int) (pp : Int) : Option Nat :=
  if 0 ≤ pp ∧ pp.toNat < rj.length then
    some ((rj.getD pp.toNat 0 % (2 ^ 32 : Int)).toNat)
  else none

/-- `ptr_approximated_values[pp] = v`; a write outside the buffer is undefined
behaviour, modelled as `none`. -/
def writeEntry (buf : List ℚ) (pp : Int) (v : ℚ) : Option (List ℚ) :=
  if 0 ≤ pp ∧ pp.toNat < buf.length then some (buf.set pp.toNat v) else none

/-- The inner loop `for(int pp = p1; pp < p2; pp++)`: reads the inner index,
extracts the matching column of `Y` (CSR) or `X` (CSC), and stores the inner
product with the already-extracted outer column `xc` at slot `pp`. -/
def innerLoop (fmt : Int) (X Y : DenseMat) (rj : List Int) (xc : List ℚ)
    (buf : List ℚ) (pp p2 : Int) : Option (List ℚ) :=
  if h : pp < p2 then
    (readIndex rj pp).bind fun ind =>
    (if fmt = CSR then Y.colv ind else X.colv ind).bind fun yc =>
    (writeEntry buf pp (dot xc yc)).bind fun buf1 =>
    innerLoop fmt X Y rj xc buf1 (pp + 1) p2
  else some buf
  termination_by (p2 - pp).toNat
  decreasing_by simp_wf; omega

/-- One iteration of the outer loop body: read `p1 = p[i]` and `p2 = p[i+1]`,
extract column `i` of `X` (CSR) or of `Y` (CSC) — this happens before the inner
loop, even when the run `[p1, p2)` is empty — then run the inner loop. -/
def outerBody (mp : List Int) (rj : List Int) (X Y : DenseMat) (fmt : Int)
    (buf : List ℚ) (i : Nat) : Option (List ℚ) :=
  (readPtr mp i).bind fun p1 =>
  (readPtr mp (i + 1)).bind fun p2 =>
  (if fmt = CSR then X.colv i else Y.colv i).bind fun xc =>
  innerLoop fmt X Y rj xc buf p1 p2

/-- The outer loop `for(uint32_t i = 0; i < N; i++)`, run sequentially; the
OpenMP schedule only distributes iterations, whose writes land in disjoint
slots for well-formed patterns. -/
def outerLoop (mp : List Int) (rj : List Int) (X Y : DenseMat) (fmt : Int)
    (buf : List ℚ) (i N : Nat) : Option (List ℚ) :=
  if h : i < N then
    (outerBody mp rj X Y fmt buf i).bind fun buf1 =>
    outerLoop mp rj X Y fmt buf1 (i + 1) N
  else some buf
  termination_by N - i
  decreasing_by simp_wf; omega

/-- Result of the C++ entry point: a returned vector, an `Rcpp::stop` call
with its message, or undefined behaviour (an out-of-bounds access). -/
inductive CppResult where
  | ok (values : List ℚ)
  | stop (msg : String)
  | ub
deriving DecidableEq

/-- The literal message passed to `Rcpp::stop` for an unknown format. -/
def stopMessage : String :=
  "make_sparse_approximation_csr doesn\x27t know sparse matrix type. Should be CSC=1 or CSR=2"

/-- The common tail of the function once the index slot `rj` has been chosen:
compute `N` (truncated to `uint32_t`), allocate the zero-filled output of
length `rj.length`, and run the outer loop. -/
def approxRun (mat : S4Pattern) (rj : List Int) (X Y : DenseMat) (fmt : Int) :
    CppResult :=
  let N : Nat := (if fmt = CSR then mat.dim0 else mat.dim1) % 2 ^ 32
  let buf0 : List ℚ := List.replicate rj.length 0
  match outerLoop mat.p rj X Y fmt buf0 0 N with
  | some buf => CppResult.ok buf
  | none => CppResult.ub

/-- `cpp_make_sparse_approximation(mat_template, X, Y, sparse_matrix_type,
n_threads)` from `src/utils.cpp`: select the index slot by format (slot `j`
for CSR, slot `i` for CSC, otherwise `Rcpp::stop`), then run the loops. -/
def cpp_make_sparse_approximation (mat : S4Pattern) (X Y : DenseMat)
    (sparse_matrix_type : Int) (n_threads : Nat) : CppResult :=
  if sparse_matrix_type = CSR then approxRun mat mat.j X Y sparse_matrix_type
  else if sparse_matrix_type = CSC then approxRun mat mat.i X Y sparse_matrix_type
  else CppResult.stop stopMessage

/-- The matrix whose column is extracted in the outer loop:
`X` for CSR, `Y` for CSC. -/
def fmtOuter (fmt : Int) (X Y : DenseMat) : DenseMat :=
  if fmt = CSR then X else Y

/-- The matrix whose column is extracted in the inner loop:
`Y` for CSR, `X` for CSC. -/
def fmtInner (fmt : Int) (X Y : DenseMat) : DenseMat :=
  if fmt = CSR then Y else X

/-- The transposed pattern: the CSC representation of the transpose of a CSR
matrix keeps the pointer array, moves the stored indices from slot `j` to slot
`i`, and swaps the dimensions. -/
def transposePattern (mat : S4Pattern) : S4Pattern :=
  { p := mat.p, j := mat.i, i := mat.j, dim0 := mat.dim1, dim1 := mat.dim0 }

/-- Decimal-substring search on character lists, used to state what the stop
message names. -/
def hasSubstr (pat : List Char) : List Char → Bool
  | [] => pat.isEmpty
  | c :: rest => pat.isPrefixOf (c :: rest) || hasSubstr pat rest

/-- Whether the call returned an output array (as opposed to stopping with an
error or running into undefined behaviour). -/
def CppResult.isOk : CppResult → Bool
  | CppResult.ok _ => true
  | _ => false

/-- The spec's concrete scenario: 2×2 diagonal CSR pattern
`p = [0,1,2]`, `j = [0,1]`. -/
def sampleCsr : S4Pattern :=
  { p := [0, 1, 2], j := [0, 1], i := [], dim0 := 2, dim1 := 2 }

/-- The spec's concrete scenario in CSC form: `p = [0,1,2]`, `i = [0,1]`. -/
def sampleCsc : S4Pattern :=
  { p := [0, 1, 2], j := [], i := [0, 1], dim0 := 2, dim1 := 2 }

/-- The 1×2 factor matrix `[[1, 2]]` from the spec's concrete scenario. -/
def sampleX : DenseMat :=
  ⟨1, 2, fun _ c => if c = 0 then 1 else 2⟩

/-- The 1×2 factor matrix `[[3, 4]]` from the spec's concrete scenario. -/
def sampleY : DenseMat :=
  ⟨1, 2, fun _ c => if c = 0 then 3 else 4⟩

/-- An empty 2×2 CSR pattern: zero nonzeros, all pointer entries zero. -/
def emptyCsr : S4Pattern :=
  { p := [0, 0, 0], j := [], i := [], dim0 := 2, dim1 := 2 }

/-- A 1×1 CSR pattern whose single stored column index is the negative
value `-1`. -/
def negCsr : S4Pattern :=
  { p := [0, 1], j := [-1], i := [], dim0 := 1, dim1 := 1 }

/-- A factor matrix with `2 ^ 32` columns, enough for the reinterpreted
index `2 ^ 32 - 1` to be in range. -/
def hugeY : DenseMat :=
  ⟨1, 2 ^ 32, fun _ c => (c : ℚ)⟩

/-- A ragged 2×2 CSR pattern whose second row has no nonzeros:
`p = [0,1,1]`, `j = [0]`. -/
def raggedCsr : S4Pattern :=
  { p := [0, 1, 1], j := [0], i := [], dim0 := 2, dim1 := 2 }

theorem getD_set_self (l : List ℚ) (i : Nat) (v : ℚ) (h : i < l.length) :
    (l.set i v).getD i 0 = v := by
  simp [List.getD_eq_getElem?_getD, List.getElem?_set_eq_of_lt v h]

theorem getD_set_other (l : List ℚ) (i j : Nat) (v : ℚ) (h : i ≠ j) :
    (l.set i v).getD j 0 = l.getD j 0 := by
  simp [List.getD_eq_getElem?_getD, List.getElem?_set_ne h]

theorem getD_replicate_zero (n q : Nat) :
    (List.replicate n (0 : ℚ)).getD q 0 = 0 := by
  simp [List.getD_eq_getElem?_getD, List.getElem?_replicate]
  split <;> rfl

theorem ptr_steps (mp : List Int) (N : Nat)
    (hmono : ∀ k, k < N → mp.getD k 0 ≤ mp.getD (k + 1) 0) :
    ∀ d a, a + d ≤ N → mp.getD a 0 ≤ mp.getD (a + d) 0 := by
  intro d
  induction d with
  | zero => intro a _; simp
  | succ d ih =>
    intro a h
    have h1 := ih a (by omega)
    have h2 := hmono (a + d) (by omega)
    have h3 : a + (d + 1) = (a + d) + 1 := by omega
    rw [h3]
    exact le_trans h1 h2

theorem ptr_mono (mp : List Int) (N : Nat)
    (hmono : ∀ k, k < N → mp.getD k 0 ≤ mp.getD (k + 1) 0)
    (a b : Nat) (hab : a ≤ b) (hbN : b ≤ N) :
    mp.getD a 0 ≤ mp.getD b 0 := by
  have h := ptr_steps mp N hmono (b - a) a (by omega)
  have hba : a + (b - a) = b := by omega
  rwa [hba] at h

theorem innerLoop_sound (fmt : Int) (X Y : DenseMat) (rj : List Int) (xc : List ℚ) :
    ∀ (n : Nat) (pp p2 : Int) (buf : List ℚ),
      (p2 - pp).toNat ≤ n →
      0 ≤ pp →
      p2 ≤ (rj.length : Int) →
      buf.length = rj.length →
      (∀ q : Nat, pp ≤ (q : Int) → (q : Int) < p2 →
        (rj.getD q 0 % 2 ^ 32).toNat < (fmtInner fmt X Y).ncol) →
      ∃ buf', innerLoop fmt X Y rj xc buf pp p2 = some buf' ∧
        buf'.length = buf.length ∧
        (∀ q : Nat, pp ≤ (q : Int) → (q : Int) < p2 →
          buf'.getD q 0 =
            dot xc (colList (fmtInner fmt X Y) ((rj.getD q 0 % 2 ^ 32).toNat))) ∧
        (∀ q : Nat, (q : Int) < pp ∨ p2 ≤ (q : Int) →
          buf'.getD q 0 = buf.getD q 0) := by
  intro n
  induction n with
  | zero =>
    intro pp p2 buf hn hpp hp2 hbuf hidx
    have hnot : ¬ pp < p2 := by omega
    refine ⟨buf, ?_, rfl, ?_, fun q _ => rfl⟩
    · rw [innerLoop]; simp [hnot]
    · intro q h1 h2; omega
  | succ n ih =>
    intro pp p2 buf hn hpp hp2 hbuf hidx
    by_cases hlt : pp < p2
    · have hppn : pp.toNat < rj.length := by omega
      have hri : readIndex rj pp = some ((rj.getD pp.toNat 0 % 2 ^ 32).toNat) := by
        simp [readIndex, hpp, hppn]
      have hindlt : (rj.getD pp.toNat 0 % 2 ^ 32).toNat < (fmtInner fmt X Y).ncol :=
        hidx pp.toNat (by omega) (by omega)
      have hcolv :
          (if fmt = CSR then Y.colv ((rj.getD pp.toNat 0 % 2 ^ 32).toNat)
            else X.colv ((rj.getD pp.toNat 0 % 2 ^ 32).toNat)) =
          some (colList (fmtInner fmt X Y) ((rj.getD pp.toNat 0 % 2 ^ 32).toNat)) := by
        by_cases hf : fmt = CSR <;>
          simp only [fmtInner, hf, if_true, if_false] at hindlt ⊢ <;>
          rw [DenseMat.colv, if_pos hindlt]
      have hpb : pp.toNat < buf.length := by omega
      have hw : writeEntry buf pp
            (dot xc (colList (fmtInner fmt X Y) ((rj.getD pp.toNat 0 % 2 ^ 32).toNat))) =
          some (buf.set pp.toNat
            (dot xc (colList (fmtInner fmt X Y) ((rj.getD pp.toNat 0 % 2 ^ 32).toNat)))) := by
        simp [writeEntry, hpp, hpb]
      obtain ⟨buf', heq, hlen, hin, hout⟩ :=
        ih (pp + 1) p2
          (buf.set pp.toNat
            (dot xc (colList (fmtInner fmt X Y) ((rj.getD pp.toNat 0 % 2 ^ 32).toNat))))
          (by omega) (by omega) hp2 (by simp [hbuf])
          (fun q h1 h2 => hidx q (by omega) h2)
      refine ⟨buf', ?_, ?_, ?_, ?_⟩
      · rw [innerLoop]
        simp only [dif_pos hlt]
        rw [hri]
        simp only [Option.some_bind]
        rw [hcolv]
        simp only [Option.some_bind]
        rw [hw]
        simp only [Option.some_bind]
        exact heq
      · rw [hlen]; simp
      · intro q h1 h2
        by_cases hq : pp + 1 ≤ (q : Int)
        · exact hin q hq h2
        · have hqe : q = pp.toNat := by omega
          rw [hout q (Or.inl (by omega))]
          subst hqe
          rw [getD_set_self _ _ _ hpb]
      · intro q hq
        rw [hout q (by omega)]
        apply getD_set_other
        omega
    · refine ⟨buf, ?_, rfl, ?_, fun q _ => rfl⟩
      · rw [innerLoop]; simp [hlt]
      · intro q h1 h2; omega

theorem outerBody_ok (mp rj : List Int) (X Y : DenseMat) (fmt : Int) (N i : Nat)
    (buf : List ℚ)
    (hiN : i < N)
    (hlen : mp.length = N + 1)
    (hp1 : 0 ≤ mp.getD i 0)
    (hp2 : mp.getD (i + 1) 0 ≤ (rj.length : Int))
    (hiA : i < (fmtOuter fmt X Y).ncol)
    (hbuf : buf.length = rj.length)
    (hidx : ∀ q : Nat, mp.getD i 0 ≤ (q : Int) → (q : Int) < mp.getD (i + 1) 0 →
      (rj.getD q 0 % 2 ^ 32).toNat < (fmtInner fmt X Y).ncol) :
    ∃ buf1, outerBody mp rj X Y fmt buf i = some buf1 ∧
      buf1.length = buf.length ∧
      (∀ q : Nat, mp.getD i 0 ≤ (q : Int) → (q : Int) < mp.getD (i + 1) 0 →
        buf1.getD q 0 = dot (colList (fmtOuter fmt X Y) i)
          (colList (fmtInner fmt X Y) ((rj.getD q 0 % 2 ^ 32).toNat))) ∧
      (∀ q : Nat, (q : Int) < mp.getD i 0 ∨ mp.getD (i + 1) 0 ≤ (q : Int) →
        buf1.getD q 0 = buf.getD q 0) := by
  have hr1 : readPtr mp i = some (mp.getD i 0) := by
    simp only [readPtr]
    rw [if_pos (by omega : i < mp.length)]
  have hr2 : readPtr mp (i + 1) = some (mp.getD (i + 1) 0) := by
    simp only [readPtr]
    rw [if_pos (by omega : i + 1 < mp.length)]
  have hxc : (if fmt = CSR then X.colv i else Y.colv i) =
      some (colList (fmtOuter fmt X Y) i) := by
    by_cases hf : fmt = CSR <;>
      simp only [fmtOuter, hf, if_true, if_false] at hiA ⊢ <;>
      rw [DenseMat.colv, if_pos hiA]
  obtain ⟨buf1, heq, hlen1, hin, hout⟩ :=
    innerLoop_sound fmt X Y rj (colList (fmtOuter fmt X Y) i)
      ((mp.getD (i + 1) 0 - mp.getD i 0).toNat) (mp.getD i 0) (mp.getD (i + 1) 0)
      buf le_rfl hp1 hp2 hbuf hidx
  refine ⟨buf1, ?_, hlen1, hin, hout⟩
  rw [outerBody, hr1]
  simp only [Option.some_bind]
  rw [hr2]
  simp only [Option.some_bind]
  rw [hxc]
  simp only [Option.some_bind]
  exact heq

theorem outerLoop_sound (mp rj : List Int) (X Y : DenseMat) (fmt : Int) (N : Nat)
    (hlen : mp.length = N + 1)
    (h0 : mp.getD 0 0 = 0)
    (hlast : mp.getD N 0 = (rj.length : Int))
    (hmono : ∀ k, k < N → mp.getD k 0 ≤ mp.getD (k + 1) 0)
    (hA : N ≤ (fmtOuter fmt X Y).ncol)
    (hidx : ∀ q : Nat, q < rj.length →
      (rj.getD q 0 % 2 ^ 32).toNat < (fmtInner fmt X Y).ncol) :
    ∀ (n i0 : Nat) (buf : List ℚ), N - i0 ≤ n → i0 ≤ N → buf.length = rj.length →
      ∃ buf', outerLoop mp rj X Y fmt buf i0 N = some buf' ∧
        buf'.length = buf.length ∧
        (∀ i, i0 ≤ i → i < N → ∀ q : Nat,
          mp.getD i 0 ≤ (q : Int) → (q : Int) < mp.getD (i + 1) 0 →
          buf'.getD q 0 = dot (colList (fmtOuter fmt X Y) i)
            (colList (fmtInner fmt X Y) ((rj.getD q 0 % 2 ^ 32).toNat))) ∧
        (∀ q : Nat,
          (∀ i, i0 ≤ i → i < N →
            ¬(mp.getD i 0 ≤ (q : Int) ∧ (q : Int) < mp.getD (i + 1) 0)) →
          buf'.getD q 0 = buf.getD q 0) := by
  intro n
  induction n with
  | zero =>
    intro i0 buf hn hi0 hbuf
    have hnot : ¬ i0 < N := by omega
    refine ⟨buf, ?_, rfl, ?_, fun q _ => rfl⟩
    · rw [outerLoop]; simp [hnot]
    · intro i hi1 hi2; omega
  | succ n ih =>
    intro i0 buf hn hi0 hbuf
    by_cases hlt : i0 < N
    · have hp1 : 0 ≤ mp.getD i0 0 := by
        have := ptr_mono mp N hmono 0 i0 (by omega) (by omega)
        omega
      have hp2 : mp.getD (i0 + 1) 0 ≤ (rj.length : Int) := by
        have := ptr_mono mp N hmono (i0 + 1) N (by omega) le_rfl
        omega
      have hidx1 : ∀ q : Nat, mp.getD i0 0 ≤ (q : Int) →
          (q : Int) < mp.getD (i0 + 1) 0 →
          (rj.getD q 0 % 2 ^ 32).toNat < (fmtInner fmt X Y).ncol := by
        intro q hq1 hq2
        exact hidx q (by omega)
      obtain ⟨buf1, hb1, hlen1, hin1, hout1⟩ :=
        outerBody_ok mp rj X Y fmt N i0 buf hlt hlen hp1 hp2 (by omega) hbuf hidx1
      obtain ⟨buf', heq, hlen', hin', hout'⟩ :=
        ih (i0 + 1) buf1 (by omega) (by omega) (by rw [hlen1]; exact hbuf)
      refine ⟨buf', ?_, by rw [hlen', hlen1], ?_, ?_⟩
      · rw [outerLoop]
        simp only [dif_pos hlt]
        rw [hb1]
        simp only [Option.some_bind]
        exact heq
      · intro i hi1 hi2 q hq1 hq2
        by_cases hii : i0 + 1 ≤ i
        · exact hin' i hii hi2 q hq1 hq2
        · have hie : i = i0 := by omega
          subst hie
          have hlater : ∀ k, i + 1 ≤ k → k < N →
              ¬(mp.getD k 0 ≤ (q : Int) ∧ (q : Int) < mp.getD (k + 1) 0) := by
            intro k h1 h2 hcon
            have := ptr_mono mp N hmono (i + 1) k h1 (by omega)
            omega
          rw [hout' q hlater]
          exact hin1 q hq1 hq2
      · intro q hq
        have hq1 : ∀ i, i0 + 1 ≤ i → i < N →
            ¬(mp.getD i 0 ≤ (q : Int) ∧ (q : Int) < mp.getD (i + 1) 0) :=
          fun i h1 h2 => hq i (by omega) h2
        rw [hout' q hq1]
        apply hout1
        have := hq i0 le_rfl hlt
        omega
    · have hie : i0 = N := by omega
      refine ⟨buf, ?_, rfl, ?_, fun q _ => rfl⟩
      · rw [outerLoop]; simp [hlt]
      · intro i hi1 hi2; omega

theorem outerLoop_fail_at (mp rj : List Int) (X Y : DenseMat) (fmt : Int) (N : Nat)
    (hlen : mp.length = N + 1)
    (hAcN : (fmtOuter fmt X Y).ncol < N)
    (buf : List ℚ) :
    outerLoop mp rj X Y fmt buf (fmtOuter fmt X Y).ncol N = none := by
  have hlt : (fmtOuter fmt X Y).ncol < N := hAcN
  rw [outerLoop]
  simp only [dif_pos hlt]
  have hr1 : readPtr mp (fmtOuter fmt X Y).ncol =
      some (mp.getD (fmtOuter fmt X Y).ncol 0) := by
    simp only [readPtr]
    rw [if_pos (by omega : (fmtOuter fmt X Y).ncol < mp.length)]
  have hr2 : readPtr mp ((fmtOuter fmt X Y).ncol + 1) =
      some (mp.getD ((fmtOuter fmt X Y).ncol + 1) 0) := by
    simp only [readPtr]
    rw [if_pos (by omega : (fmtOuter fmt X Y).ncol + 1 < mp.length)]
  have hxc : (if fmt = CSR then X.colv (fmtOuter fmt X Y).ncol
      else Y.colv (fmtOuter fmt X Y).ncol) = none := by
    by_cases hf : fmt = CSR <;>
      simp only [fmtOuter, hf, if_true, if_false] <;>
      rw [DenseMat.colv, if_neg (by omega)]
  rw [outerBody, hr1]
  simp only [Option.some_bind]
  rw [hr2]
  simp only [Option.some_bind]
  rw [hxc]
  simp only [Option.none_bind]

theorem outerLoop_fail (mp rj : List Int) (X Y : DenseMat) (fmt : Int) (N : Nat)
    (hlen : mp.length = N + 1)
    (h0 : mp.getD 0 0 = 0)
    (hlast : mp.getD N 0 = (rj.length : Int))
    (hmono : ∀ k, k < N → mp.getD k 0 ≤ mp.getD (k + 1) 0)
    (hidx : ∀ q : Nat, q < rj.length →
      (rj.getD q 0 % 2 ^ 32).toNat < (fmtInner fmt X Y).ncol)
    (hAcN : (fmtOuter fmt X Y).ncol < N) :
    ∀ (n i0 : Nat) (buf : List ℚ),
      (fmtOuter fmt X Y).ncol - i0 ≤ n → i0 ≤ (fmtOuter fmt X Y).ncol →
      buf.length = rj.length →
      outerLoop mp rj X Y fmt buf i0 N = none := by
  intro n
  induction n with
  | zero =>
    intro i0 buf hn hi0 hbuf
    have hie : i0 = (fmtOuter fmt X Y).ncol := by omega
    rw [hie]
    exact outerLoop_fail_at mp rj X Y fmt N hlen hAcN buf
  | succ n ih =>
    intro i0 buf hn hi0 hbuf
    by_cases hie : i0 = (fmtOuter fmt X Y).ncol
    · rw [hie]
      exact outerLoop_fail_at mp rj X Y fmt N hlen hAcN buf
    · have hp1 : 0 ≤ mp.getD i0 0 := by
        have := ptr_mono mp N hmono 0 i0 (by omega) (by omega)
        omega
      have hp2 : mp.getD (i0 + 1) 0 ≤ (rj.length : Int) := by
        have := ptr_mono mp N hmono (i0 + 1) N (by omega) le_rfl
        omega
      have hidx1 : ∀ q : Nat, mp.getD i0 0 ≤ (q : Int) →
          (q : Int) < mp.getD (i0 + 1) 0 →
          (rj.getD q 0 % 2 ^ 32).toNat < (fmtInner fmt X Y).ncol := by
        intro q hq1 hq2
        exact hidx q (by omega)
      obtain ⟨buf1, hb1, hlen1, _, _⟩ :=
        outerBody_ok mp rj X Y fmt N i0 buf (by omega) hlen hp1 hp2 (by omega)
          hbuf hidx1
      rw [outerLoop]
      simp only [dif_pos (by omega : i0 < N)]
      rw [hb1]
      simp only [Option.some_bind]
      exact ih (i0 + 1) buf1 (by omega) (by omega) (by rw [hlen1]; exact hbuf)

theorem approxRun_sound (mat : S4Pattern) (rj : List Int) (X Y : DenseMat)
    (fmt : Int) (N0 : Nat)
    (hN0 : (if fmt = CSR then mat.dim0 else mat.dim1) = N0)
    (hN32 : N0 < 2 ^ 32)
    (hlen : mat.p.length = N0 + 1)
    (h0 : mat.p.getD 0 0 = 0)
    (hlast : mat.p.getD N0 0 = (rj.length : Int))
    (hmono : ∀ k, k < N0 → mat.p.getD k 0 ≤ mat.p.getD (k + 1) 0)
    (hA : N0 ≤ (fmtOuter fmt X Y).ncol)
    (hidx : ∀ q : Nat, q < rj.length →
      (rj.getD q 0 % 2 ^ 32).toNat < (fmtInner fmt X Y).ncol) :
    ∃ out, approxRun mat rj X Y fmt = CppResult.ok out ∧ out.length = rj.length ∧
      ∀ i, i < N0 → ∀ q : Nat,
        mat.p.getD i 0 ≤ (q : Int) → (q : Int) < mat.p.getD (i + 1) 0 →
        out.getD q 0 = dot (colList (fmtOuter fmt X Y) i)
          (colList (fmtInner fmt X Y) ((rj.getD q 0 % 2 ^ 32).toNat)) := by
  obtain ⟨buf', heq, hlen', hin, _⟩ :=
    outerLoop_sound mat.p rj X Y fmt N0 hlen h0 hlast hmono hA hidx N0 0
      (List.replicate rj.length 0) (by omega) (by omega) (by simp)
  refine ⟨buf', ?_, by rw [hlen']; simp,
    fun i hi q hq1 hq2 => hin i (by omega) hi q hq1 hq2⟩
  simp only [approxRun]
  rw [hN0, Nat.mod_eq_of_lt hN32, heq]

theorem approxRun_fail (mat : S4Pattern) (rj : List Int) (X Y : DenseMat)
    (fmt : Int) (N0 : Nat)
    (hN0 : (if fmt = CSR then mat.dim0 else mat.dim1) = N0)
    (hN32 : N0 < 2 ^ 32)
    (hlen : mat.p.length = N0 + 1)
    (h0 : mat.p.getD 0 0 = 0)
    (hlast : mat.p.getD N0 0 = (rj.length : Int))
    (hmono : ∀ k, k < N0 → mat.p.getD k 0 ≤ mat.p.getD (k + 1) 0)
    (hidx : ∀ q : Nat, q < rj.length →
      (rj.getD q 0 % 2 ^ 32).toNat < (fmtInner fmt X Y).ncol)
    (hAc : (fmtOuter fmt X Y).ncol < N0) :
    approxRun mat rj X Y fmt = CppResult.ub := by
  have hnone := outerLoop_fail mat.p rj X Y fmt N0 hlen h0 hlast hmono hidx hAc
    (fmtOuter fmt X Y).ncol 0 (List.replicate rj.length 0)
    (by omega) (by omega) (by simp)
  simp only [approxRun]
  rw [hN0, Nat.mod_eq_of_lt hN32, hnone]

theorem innerLoop_flip (X Y : DenseMat) (rj : List Int) (xc : List ℚ) :
    ∀ (n : Nat) (pp p2 : Int) (buf : List ℚ), (p2 - pp).toNat ≤ n →
      innerLoop CSC Y X rj xc buf pp p2 = innerLoop CSR X Y rj xc buf pp p2 := by
  intro n
  induction n with
  | zero =>
    intro pp p2 buf hn
    have hnot : ¬ pp < p2 := by omega
    rw [innerLoop, innerLoop]
    simp [hnot]
  | succ n ih =>
    intro pp p2 buf hn
    by_cases hlt : pp < p2
    · rw [innerLoop, innerLoop]
      simp only [dif_pos hlt]
      have hcs : ¬ (CSC = CSR) := by decide
      simp only [hcs, if_false, if_pos rfl]
      apply congrArg
      funext ind
      apply congrArg
      funext yc
      apply congrArg
      funext buf1
      exact ih (pp + 1) p2 buf1 (by omega)
    · rw [innerLoop, innerLoop]
      simp [hlt]

theorem outerLoop_flip (mp rj : List Int) (X Y : DenseMat) :
    ∀ (n i0 N : Nat) (buf : List ℚ), N - i0 ≤ n →
      outerLoop mp rj Y X CSC buf i0 N = outerLoop mp rj X Y CSR buf i0 N := by
  intro n
  induction n with
  | zero =>
    intro i0 N buf hn
    have hnot : ¬ i0 < N := by omega
    rw [outerLoop, outerLoop]
    simp [hnot]
  | succ n ih =>
    intro i0 N buf hn
    by_cases hlt : i0 < N
    · rw [outerLoop, outerLoop]
      simp only [dif_pos hlt]
      have hbody : outerBody mp rj Y X CSC buf i0 = outerBody mp rj X Y CSR buf i0 := by
        rw [outerBody, outerBody]
        apply congrArg
        funext p1
        apply congrArg
        funext p2
        have hcs : ¬ (CSC = CSR) := by decide
        simp only [hcs, if_false, if_pos rfl]
        apply congrArg
        funext xc
        exact innerLoop_flip X Y rj xc (p2 - p1).toNat p1 p2 buf le_rfl
      rw [hbody]
      apply congrArg
      funext buf1
      exact ih (i0 + 1) N buf1 (by omega)
    · rw [outerLoop, outerLoop]
      simp [hlt]

/-- C1: for every well-formed CSR pattern and factor matrices with matching
dimensions, and every outer index `i` and nonzero position `pp` with
`outer_ptr[i] ≤ pp < outer_ptr[i+1]`, the output slot `pp` returned by
`cpp_make_sparse_approximation` equals the inner product of column `i` of `X`
with column `inner_index[pp]` of `Y`. -/
theorem claim_C1_csr_slot (mat : S4Pattern) (X Y : DenseMat) (nt : Nat)
    (hN32 : mat.dim0 < 2 ^ 32)
    (hlen : mat.p.length = mat.dim0 + 1)
    (h0 : mat.p.getD 0 0 = 0)
    (hlast : mat.p.getD mat.dim0 0 = (mat.j.length : Int))
    (hmono : ∀ k, k < mat.dim0 → mat.p.getD k 0 ≤ mat.p.getD (k + 1) 0)
    (hX : mat.dim0 ≤ X.ncol)
    (hj : ∀ q : Nat, q < mat.j.length →
      0 ≤ mat.j.getD q 0 ∧ mat.j.getD q 0 < (Y.ncol : Int) ∧
        mat.j.getD q 0 < 2 ^ 31)
    (i pp : Nat) (hi : i < mat.dim0)
    (hpp1 : mat.p.getD i 0 ≤ (pp : Int))
    (hpp2 : (pp : Int) < mat.p.getD (i + 1) 0) :
    ∃ out, cpp_make_sparse_approximation mat X Y CSR nt = CppResult.ok out ∧
      out.length = mat.j.length ∧
      out.getD pp 0 = dot (colList X i) (colList Y ((mat.j.getD pp 0).toNat)) := by
  have hfo : fmtOuter CSR X Y = X := by rw [fmtOuter, if_pos rfl]
  have hfi : fmtInner CSR X Y = Y := by rw [fmtInner, if_pos rfl]
  have hidx : ∀ q : Nat, q < mat.j.length →
      (mat.j.getD q 0 % 2 ^ 32).toNat < (fmtInner CSR X Y).ncol := by
    intro q hq
    obtain ⟨h1, h2, h3⟩ := hj q hq
    have hmod : mat.j.getD q 0 % 2 ^ 32 = mat.j.getD q 0 :=
      Int.emod_eq_of_lt h1 (by omega)
    rw [hfi, hmod]
    omega
  obtain ⟨out, hok, hlenout, hchar⟩ :=
    approxRun_sound mat mat.j X Y CSR mat.dim0 (by rw [if_pos rfl]) hN32 hlen h0
      hlast hmono (by rw [hfo]; exact hX) hidx
  refine ⟨out, ?_, hlenout, ?_⟩
  · rw [cpp_make_sparse_approximation, if_pos rfl]
    exact hok
  · have hq : pp < mat.j.length := by
      have h2 := ptr_mono mat.p mat.dim0 hmono (i + 1) mat.dim0 (by omega) le_rfl
      omega
    obtain ⟨h1, h2, h3⟩ := hj pp hq
    have hmod : mat.j.getD pp 0 % 2 ^ 32 = mat.j.getD pp 0 :=
      Int.emod_eq_of_lt h1 (by omega)
    rw [hchar i hi pp hpp1 hpp2, hfo, hfi, hmod]

/-- C2: for every well-formed CSC pattern and factor matrices with matching
dimensions, and every outer index `i` and nonzero position `pp` with
`outer_ptr[i] ≤ pp < outer_ptr[i+1]`, the output slot `pp` returned by
`cpp_make_sparse_approximation` equals the inner product of column `i` of `Y`
with column `inner_index[pp]` of `X`. -/
theorem claim_C2_csc_slot (mat : S4Pattern) (X Y : DenseMat) (nt : Nat)
    (hN32 : mat.dim1 < 2 ^ 32)
    (hlen : mat.p.length = mat.dim1 + 1)
    (h0 : mat.p.getD 0 0 = 0)
    (hlast : mat.p.getD mat.dim1 0 = (mat.i.length : Int))
    (hmono : ∀ k, k < mat.dim1 → mat.p.getD k 0 ≤ mat.p.getD (k + 1) 0)
    (hY : mat.dim1 ≤ Y.ncol)
    (hj : ∀ q : Nat, q < mat.i.length →
      0 ≤ mat.i.getD q 0 ∧ mat.i.getD q 0 < (X.ncol : Int) ∧
        mat.i.getD q 0 < 2 ^ 31)
    (i pp : Nat) (hi : i < mat.dim1)
    (hpp1 : mat.p.getD i 0 ≤ (pp : Int))
    (hpp2 : (pp : Int) < mat.p.getD (i + 1) 0) :
    ∃ out, cpp_make_sparse_approximation mat X Y CSC nt = CppResult.ok out ∧
      out.length = mat.i.length ∧
      out.getD pp 0 = dot (colList Y i) (colList X ((mat.i.getD pp 0).toNat)) := by
  have hne : ¬ ((CSC : Int) = CSR) := by decide
  have hfo : fmtOuter CSC X Y = Y := by rw [fmtOuter, if_neg hne]
  have hfi : fmtInner CSC X Y = X := by rw [fmtInner, if_neg hne]
  have hidx : ∀ q : Nat, q < mat.i.length →
      (mat.i.getD q 0 % 2 ^ 32).toNat < (fmtInner CSC X Y).ncol := by
    intro q hq
    obtain ⟨h1, h2, h3⟩ := hj q hq
    have hmod : mat.i.getD q 0 % 2 ^ 32 = mat.i.getD q 0 :=
      Int.emod_eq_of_lt h1 (by omega)
    rw [hfi, hmod]
    omega
  obtain ⟨out, hok, hlenout, hchar⟩ :=
    approxRun_sound mat mat.i X Y CSC mat.dim1 (by rw [if_neg hne]) hN32 hlen h0
      hlast hmono (by rw [hfo]; exact hY) hidx
  refine ⟨out, ?_, hlenout, ?_⟩
  · rw [cpp_make_sparse_approximation, if_neg hne, if_pos rfl]
    exact hok
  · have hq : pp < mat.i.length := by
      have h2 := ptr_mono mat.p mat.dim1 hmono (i + 1) mat.dim1 (by omega) le_rfl
      omega
    obtain ⟨h1, h2, h3⟩ := hj pp hq
    have hmod : mat.i.getD pp 0 % 2 ^ 32 = mat.i.getD pp 0 :=
      Int.emod_eq_of_lt h1 (by omega)
    rw [hchar i hi pp hpp1 hpp2, hfo, hfi, hmod]

theorem claim_C1_csr_slot_witness :
    ∃ out,
      cpp_make_sparse_approximation sampleCsr sampleX sampleY CSR 1 =
        CppResult.ok out ∧
      out.length = sampleCsr.j.length ∧
      out.getD 1 0 =
        dot (colList sampleX 1) (colList sampleY ((sampleCsr.j.getD 1 0).toNat)) :=
  claim_C1_csr_slot sampleCsr sampleX sampleY 1 (by decide) (by decide) (by decide)
    (by decide) (by decide) (by decide) (by decide) 1 1 (by decide) (by decide)
    (by decide)

theorem claim_C2_csc_slot_witness :
    ∃ out,
      cpp_make_sparse_approximation sampleCsc sampleX sampleY CSC 1 =
        CppResult.ok out ∧
      out.length = sampleCsc.i.length ∧
      out.getD 1 0 =
        dot (colList sampleY 1) (colList sampleX ((sampleCsc.i.getD 1 0).toNat)) :=
  claim_C2_csc_slot sampleCsc sampleX sampleY 1 (by decide) (by decide) (by decide)
    (by decide) (by decide) (by decide) (by decide) 1 1 (by decide) (by decide)
    (by decide)

/-- C3: for every valid pattern (in either format) and factor matrices, the
array returned by `cpp_make_sparse_approximation` has length equal to the
length of the pattern's inner-index array. -/
theorem claim_C3_output_length (mat : S4Pattern) (X Y : DenseMat) (fmt : Int)
    (nt : Nat) (rj : List Int) (N0 : Nat)
    (hfmt : fmt = CSR ∨ fmt = CSC)
    (hrj : rj = if fmt = CSR then mat.j else mat.i)
    (hN0 : N0 = if fmt = CSR then mat.dim0 else mat.dim1)
    (hN32 : N0 < 2 ^ 32)
    (hlen : mat.p.length = N0 + 1)
    (h0 : mat.p.getD 0 0 = 0)
    (hlast : mat.p.getD N0 0 = (rj.length : Int))
    (hmono : ∀ k, k < N0 → mat.p.getD k 0 ≤ mat.p.getD (k + 1) 0)
    (hA : N0 ≤ (fmtOuter fmt X Y).ncol)
    (hidx : ∀ q : Nat, q < rj.length →
      (rj.getD q 0 % 2 ^ 32).toNat < (fmtInner fmt X Y).ncol) :
    ∃ out, cpp_make_sparse_approximation mat X Y fmt nt = CppResult.ok out ∧
      out.length = rj.length := by
  obtain ⟨out, hok, hlenout, _⟩ :=
    approxRun_sound mat rj X Y fmt N0 hN0.symm hN32 hlen h0 hlast hmono hA hidx
  refine ⟨out, ?_, hlenout⟩
  rcases hfmt with hf | hf <;> subst hf
  · have hrje : rj = mat.j := by rw [hrj, if_pos rfl]
    rw [cpp_make_sparse_approximation, if_pos rfl, ← hrje]
    exact hok
  · have hne : ¬ ((CSC : Int) = CSR) := by decide
    have hrje : rj = mat.i := by rw [hrj, if_neg hne]
    rw [cpp_make_sparse_approximation, if_neg hne, if_pos rfl, ← hrje]
    exact hok

theorem claim_C3_output_length_witness :
    ∃ out,
      cpp_make_sparse_approximation sampleCsr sampleX sampleY CSR 2 =
        CppResult.ok out ∧
      out.length = sampleCsr.j.length :=
  claim_C3_output_length sampleCsr sampleX sampleY CSR 2 sampleCsr.j 2
    (Or.inl rfl) (by decide) (by decide) (by decide) (by decide) (by decide)
    (by decide) (by decide) (by decide) (by decide)

/-- C4: for every format value that is neither CSR (2) nor CSC (1),
`cpp_make_sparse_approximation` stops with the invalid-format error and
produces no output array. -/
theorem claim_C4_invalid_format (mat : S4Pattern) (X Y : DenseMat) (fmt : Int)
    (nt : Nat) (h1 : fmt ≠ CSR) (h2 : fmt ≠ CSC) :
    cpp_make_sparse_approximation mat X Y fmt nt = CppResult.stop stopMessage ∧
      (cpp_make_sparse_approximation mat X Y fmt nt).isOk = false := by
  have he : cpp_make_sparse_approximation mat X Y fmt nt =
      CppResult.stop stopMessage := by
    rw [cpp_make_sparse_approximation, if_neg h1, if_neg h2]
  exact ⟨he, by rw [he]; rfl⟩

theorem claim_C4_invalid_format_witness :
    cpp_make_sparse_approximation sampleCsr sampleX sampleY 0 4 =
      CppResult.stop stopMessage ∧
      (cpp_make_sparse_approximation sampleCsr sampleX sampleY 0 4).isOk = false :=
  claim_C4_invalid_format sampleCsr sampleX sampleY 0 4 (by decide) (by decide)

/-- C5: for every pattern, factor matrices and format, and any two
thread-count arguments, `cpp_make_sparse_approximation` returns identical
output: the result is invariant under `n_threads` (the thread count only
distributes loop iterations, whose writes are position-aligned). -/
theorem claim_C5_thread_invariance (mat : S4Pattern) (X Y : DenseMat)
    (fmt : Int) (nt1 nt2 : Nat) :
    cpp_make_sparse_approximation mat X Y fmt nt1 =
      cpp_make_sparse_approximation mat X Y fmt nt2 := rfl

/-- C6: for every pattern `P` and factor matrices `X`, `Y`, the CSR
approximation of `P` using `(X, Y)` equals the CSC approximation of the
transposed pattern using `(Y, X)`. -/
theorem claim_C6_transpose_consistency (mat : S4Pattern) (X Y : DenseMat)
    (nt : Nat) :
    cpp_make_sparse_approximation mat X Y CSR nt =
      cpp_make_sparse_approximation (transposePattern mat) Y X CSC nt := by
  have hne : ¬ ((CSC : Int) = CSR) := by decide
  rw [cpp_make_sparse_approximation, if_pos rfl,
    cpp_make_sparse_approximation, if_neg hne, if_pos rfl]
  simp only [approxRun, transposePattern]
  simp only [if_true, if_neg hne]
  have hflip := outerLoop_flip mat.p mat.j X Y (mat.dim0 % 2 ^ 32) 0
    (mat.dim0 % 2 ^ 32) (List.replicate mat.j.length 0) (by omega)
  rw [hflip]

/-- C7 counterexample: called with the invalid format value `3`, the function
stops with the fixed message, and the decimal representation of the received
value `3` does not occur anywhere in that message — so the message does not
name the received format value. -/
theorem claim_C7_counterexample :
    cpp_make_sparse_approximation sampleCsr sampleX sampleY 3 1 =
      CppResult.stop stopMessage ∧
      hasSubstr "3".data stopMessage.data = false := by
  constructor
  · rw [cpp_make_sparse_approximation, if_neg (by decide), if_neg (by decide)]
  · decide

/-- C7 (amended): when the format value is neither CSR nor CSC, the function
fails immediately with a fixed message that names the two accepted values
(`CSC=1` and `CSR=2`), but the message does not include the received format
value. -/
theorem claim_C7_amended_stop_message (mat : S4Pattern) (X Y : DenseMat)
    (fmt : Int) (nt : Nat) (h1 : fmt ≠ CSR) (h2 : fmt ≠ CSC) :
    cpp_make_sparse_approximation mat X Y fmt nt = CppResult.stop stopMessage ∧
      hasSubstr "CSC=1".data stopMessage.data = true ∧
      hasSubstr "CSR=2".data stopMessage.data = true := by
  refine ⟨?_, by decide, by decide⟩
  rw [cpp_make_sparse_approximation, if_neg h1, if_neg h2]

theorem claim_C7_amended_stop_message_witness :
    cpp_make_sparse_approximation sampleCsr sampleX sampleY 3 7 =
      CppResult.stop stopMessage ∧
      hasSubstr "CSC=1".data stopMessage.data = true ∧
      hasSubstr "CSR=2".data stopMessage.data = true :=
  claim_C7_amended_stop_message sampleCsr sampleX sampleY 3 7 (by decide)
    (by decide)

/-- C8: for every pattern with zero nonzeros (inner-index array empty, all
outer-pointer entries 0) and valid factor matrices, the function returns an
empty output array without error. -/
theorem claim_C8_empty_pattern (mat : S4Pattern) (X Y : DenseMat) (fmt : Int)
    (nt : Nat) (rj : List Int) (N0 : Nat)
    (hfmt : fmt = CSR ∨ fmt = CSC)
    (hrj : rj = if fmt = CSR then mat.j else mat.i)
    (hN0 : N0 = if fmt = CSR then mat.dim0 else mat.dim1)
    (hN32 : N0 < 2 ^ 32)
    (hp : mat.p = List.replicate (N0 + 1) 0)
    (hempty : rj = [])
    (hA : N0 ≤ (fmtOuter fmt X Y).ncol) :
    cpp_make_sparse_approximation mat X Y fmt nt = CppResult.ok [] := by
  have hpk : ∀ k : Nat, mat.p.getD k 0 = 0 := by
    intro k
    rw [hp]
    simp [List.getD_eq_getElem?_getD, List.getElem?_replicate]
    split <;> rfl
  have hlast : mat.p.getD N0 0 = (rj.length : Int) := by
    rw [hpk N0, hempty]
    rfl
  obtain ⟨out, hok, hlenout, _⟩ :=
    approxRun_sound mat rj X Y fmt N0 hN0.symm hN32 (by rw [hp]; simp) (hpk 0)
      hlast (fun k _ => by rw [hpk k, hpk (k + 1)]) hA
      (by rw [hempty]; intro q hq; simp at hq)
  have hout : out = [] := by
    have : out.length = 0 := by rw [hlenout, hempty]; rfl
    exact List.length_eq_zero.mp this
  subst hout
  rcases hfmt with hf | hf <;> subst hf
  · have hrje : rj = mat.j := by rw [hrj, if_pos rfl]
    rw [cpp_make_sparse_approximation, if_pos rfl, ← hrje]
    exact hok
  · have hne : ¬ ((CSC : Int) = CSR) := by decide
    have hrje : rj = mat.i := by rw [hrj, if_neg hne]
    rw [cpp_make_sparse_approximation, if_neg hne, if_pos rfl, ← hrje]
    exact hok

theorem claim_C8_empty_pattern_witness :
    cpp_make_sparse_approximation emptyCsr sampleX sampleY CSR 1 =
      CppResult.ok [] :=
  claim_C8_empty_pattern emptyCsr sampleX sampleY CSR 1 emptyCsr.j 2
    (Or.inl rfl) (by decide) (by decide) (by decide) (by decide) (by decide)
    (by decide)

/-- C9: the inner-index array supplied as signed integers is reinterpreted as
unsigned without a safety check: the column index used for the dot product at
position `pp` is `inner_index[pp]` taken modulo `2 ^ 32`, so a stored negative
index `-m` is used as column `2 ^ 32 - m` of `Y` rather than rejected. -/
theorem claim_C9_signed_reinterpretation (mat : S4Pattern) (X Y : DenseMat)
    (nt : Nat)
    (hN32 : mat.dim0 < 2 ^ 32)
    (hlen : mat.p.length = mat.dim0 + 1)
    (h0 : mat.p.getD 0 0 = 0)
    (hlast : mat.p.getD mat.dim0 0 = (mat.j.length : Int))
    (hmono : ∀ k, k < mat.dim0 → mat.p.getD k 0 ≤ mat.p.getD (k + 1) 0)
    (hX : mat.dim0 ≤ X.ncol)
    (hidx : ∀ q : Nat, q < mat.j.length →
      (mat.j.getD q 0 % 2 ^ 32).toNat < Y.ncol)
    (i pp : Nat) (hi : i < mat.dim0)
    (hpp1 : mat.p.getD i 0 ≤ (pp : Int))
    (hpp2 : (pp : Int) < mat.p.getD (i + 1) 0)
    (m : Nat) (hneg : mat.j.getD pp 0 = -(m : Int))
    (hm1 : 1 ≤ m) (hm2 : m ≤ 2 ^ 31) :
    ∃ out, cpp_make_sparse_approximation mat X Y CSR nt = CppResult.ok out ∧
      out.getD pp 0 = dot (colList X i) (colList Y (2 ^ 32 - m)) := by
  have hfo : fmtOuter CSR X Y = X := by rw [fmtOuter, if_pos rfl]
  have hfi : fmtInner CSR X Y = Y := by rw [fmtInner, if_pos rfl]
  obtain ⟨out, hok, hlenout, hchar⟩ :=
    approxRun_sound mat mat.j X Y CSR mat.dim0 (by rw [if_pos rfl]) hN32 hlen h0
      hlast hmono (by rw [hfo]; exact hX) (by rw [hfi]; exact hidx)
  refine ⟨out, ?_, ?_⟩
  · rw [cpp_make_sparse_approximation, if_pos rfl]
    exact hok
  · have hmod : (mat.j.getD pp 0 % 2 ^ 32).toNat = 2 ^ 32 - m := by
      rw [hneg]
      omega
    rw [hchar i hi pp hpp1 hpp2, hfo, hfi, hmod]

theorem claim_C9_signed_reinterpretation_witness :
    ∃ out,
      cpp_make_sparse_approximation negCsr sampleX hugeY CSR 1 =
        CppResult.ok out ∧
      out.getD 0 0 = dot (colList sampleX 0) (colList hugeY (2 ^ 32 - 1)) :=
  claim_C9_signed_reinterpretation negCsr sampleX hugeY 1 (by decide) (by decide)
    (by decide) (by decide) (by decide) (by decide) (by decide) 0 0 (by decide)
    (by decide) (by decide) 1 (by decide) (by decide) (by decide)

/-- C10: for every outer index `i` below `N`, the function extracts column `i`
of `X` (CSR) or of `Y` (CSC) even when that index's nonzero run is empty, so
on an otherwise well-formed pattern the call succeeds exactly when the outer
factor matrix has at least `N` columns — even for patterns whose trailing
outer slots contain no nonzeros — and under that precondition the column
extraction never reads out of bounds. -/
theorem claim_C10_outer_column_bound (mat : S4Pattern) (X Y : DenseMat)
    (fmt : Int) (nt : Nat) (rj : List Int) (N0 : Nat)
    (hfmt : fmt = CSR ∨ fmt = CSC)
    (hrj : rj = if fmt = CSR then mat.j else mat.i)
    (hN0 : N0 = if fmt = CSR then mat.dim0 else mat.dim1)
    (hN32 : N0 < 2 ^ 32)
    (hlen : mat.p.length = N0 + 1)
    (h0 : mat.p.getD 0 0 = 0)
    (hlast : mat.p.getD N0 0 = (rj.length : Int))
    (hmono : ∀ k, k < N0 → mat.p.getD k 0 ≤ mat.p.getD (k + 1) 0)
    (hidx : ∀ q : Nat, q < rj.length →
      (rj.getD q 0 % 2 ^ 32).toNat < (fmtInner fmt X Y).ncol) :
    (cpp_make_sparse_approximation mat X Y fmt nt).isOk = true ↔
      N0 ≤ (fmtOuter fmt X Y).ncol := by
  have hcpp : cpp_make_sparse_approximation mat X Y fmt nt =
      approxRun mat rj X Y fmt := by
    rcases hfmt with hf | hf <;> subst hf
    · have hrje : rj = mat.j := by rw [hrj, if_pos rfl]
      rw [cpp_make_sparse_approximation, if_pos rfl, ← hrje]
    · have hne : ¬ ((CSC : Int) = CSR) := by decide
      have hrje : rj = mat.i := by rw [hrj, if_neg hne]
      rw [cpp_make_sparse_approximation, if_neg hne, if_pos rfl, ← hrje]
  constructor
  · intro hok
    by_contra hc
    have hAc : (fmtOuter fmt X Y).ncol < N0 := by omega
    have hub := approxRun_fail mat rj X Y fmt N0 hN0.symm hN32 hlen h0 hlast
      hmono hidx hAc
    rw [hcpp, hub] at hok
    exact absurd hok (by decide)
  · intro hA
    obtain ⟨out, hok, _, _⟩ :=
      approxRun_sound mat rj X Y fmt N0 hN0.symm hN32 hlen h0 hlast hmono hA hidx
    rw [hcpp, hok]
    rfl

theorem claim_C10_outer_column_bound_witness :
    (cpp_make_sparse_approximation raggedCsr sampleX sampleY CSR 1).isOk = true ↔
      2 ≤ (fmtOuter CSR sampleX sampleY).ncol :=
  claim_C10_outer_column_bound raggedCsr sampleX sampleY CSR 1 raggedCsr.j 2
    (Or.inl rfl) (by decide) (by decide) (by decide) (by decide) (by decide)
    (by decide) (by decide) (by decide)

end Rsparse
